import Mathlib

/-!
Verification development for the `guse` repository: a shallow embedding of
its git origin-URL parser (`src/git/mod.rs`), its SSH-config host parser
(`src/cli/list_ssh.rs`), the SSH host block renderer (`src/cli/add_ssh.rs`),
the profile store (`src/config/mod.rs`), and the profile-selection logic of
the `switch` command (`src/cli/switch.rs`).

Rust strings are embedded as `List Char`; the string primitives used by the
code (`split`, `split_whitespace`, `trim`, `trim_end_matches`, `starts_with`,
`lines`) are defined below with the semantics of their Rust counterparts.
File I/O is embedded as explicit state passing over a `Disk` value, with an
`FsEnv` record saying which primitive operations fail in a given run.
-/

deriving instance DecidableEq for Except

namespace Guse

/-- Rust `&str` embedded as a list of characters. -/
abbrev Str := List Char

/-- Rust `str::split(sep)`: chunks between every occurrence of `sep`,
including empty chunks; the empty string yields one empty chunk. -/
def splitOnChar (sep : Char) : Str → List Str
  | [] => [[]]
  | c :: cs =>
    let r := splitOnChar sep cs
    if c = sep then [] :: r
    else
      match r with
      | [] => [[c]]
      | w :: ws => (c :: w) :: ws

/-- Rust `str::starts_with(pat)`: `startsWith pat s` is true when `pat` is
an initial segment of `s`. -/
def startsWith : Str → Str → Bool
  | [], _ => true
  | _ :: _, [] => false
  | p :: ps, c :: cs => p == c && startsWith ps cs

/-- Accumulator loop for `words`: `acc` holds the current word reversed. -/
def wordsAux : Str → Str → List Str
  | [], acc => if acc = [] then [] else [acc.reverse]
  | c :: cs, acc =>
    if c.isWhitespace then
      if acc = [] then wordsAux cs [] else acc.reverse :: wordsAux cs []
    else wordsAux cs (c :: acc)

/-- Rust `str::split_whitespace`: the maximal whitespace-free nonempty
chunks of `s`, in order. -/
def words (s : Str) : List Str := wordsAux s []

/-- Rust `str::trim_start`. -/
def trimLeft (s : Str) : Str := s.dropWhile Char.isWhitespace

/-- Rust `str::trim_end`. -/
def trimRight (s : Str) : Str := (s.reverse.dropWhile Char.isWhitespace).reverse

/-- Rust `str::trim`. -/
def trim (s : Str) : Str := trimRight (trimLeft s)

/-- Helper for `trim_end_matches_git`: strips leading copies of the
reversal of `.git` (that is, `tig.`) from a reversed string. -/
def stripRevGit : Str → Str
  | 't' :: 'i' :: 'g' :: '.' :: rest => stripRevGit rest
  | s => s

/-- Rust `str::trim_end_matches(".git")`: repeatedly removes a trailing
`.git` suffix. -/
def trim_end_matches_git (s : Str) : Str := (stripRevGit s.reverse).reverse

/-- `GitError(String)` from `src/git/mod.rs`. -/
structure GitError where
  msg : String
deriving DecidableEq, Repr

/-- `Git::parse_origin_url` (src/git/mod.rs:75-120), from the point where
the remote URL string has been obtained. The subprocess call that fetches
the URL is an external collaborator; the parsing logic below is translated
line by line: empty URL is an error; a URL is handled by the `git@` rule
only when it starts with `git@` AND splitting on `:` gives exactly two
parts (otherwise control falls through); then by the `https://` rule when
it starts with `https://` and has at least two `/`-separated parts;
otherwise the unsupported-format error. -/
def parse_origin_url (url : Str) : Except GitError (Str × Str) :=
  if url = [] then
    .error ⟨"Remote origin URL is empty"⟩
  else if startsWith "git@".toList url && (splitOnChar ':' url).length = 2 then
    let parts := splitOnChar ':' url
    let path := trim_end_matches_git (parts.getD 1 [])
    match splitOnChar '/' path with
    | user :: repo :: _ => .ok (user, repo)
    | _ => .error ⟨"Invalid remote repository URL format"⟩
  else if startsWith "https://".toList url && 2 ≤ (splitOnChar '/' url).length then
    let parts := splitOnChar '/' url
    .ok (parts.getD (parts.length - 2) [],
         trim_end_matches_git (parts.getD (parts.length - 1) []))
  else
    .error ⟨"Unsupported remote repository URL format"⟩

/-- True exactly on `Except.error`. -/
def isErr {ε α : Type} : Except ε α → Bool
  | .error _ => true
  | .ok _ => false

example : parse_origin_url "git@github.com:alice/repo.git".toList =
    .ok ("alice".toList, "repo".toList) := by decide

example : parse_origin_url "https://github.com/alice/repo.git".toList =
    .ok ("alice".toList, "repo".toList) := by decide

example : parse_origin_url "git@host:x:a/b".toList =
    .error ⟨"Unsupported remote repository URL format"⟩ := by decide

/-- Strip one trailing carriage return, for chunks that were terminated by
a line feed (Rust `str::lines` treats `\r\n` as a line terminator). -/
def stripCR (l : Str) : Str := if l.getLast? = some '\r' then l.dropLast else l

/-- Rust `str::lines`: split at `\n`, treating a preceding `\r` as part of
the terminator of each terminated chunk; a final line terminator produces
no extra empty line, and the empty string has no lines. -/
def rustLines (s : Str) : List Str :=
  let chunks := splitOnChar '\n' s
  let init := chunks.dropLast.map stripCR
  match chunks.getLast? with
  | none => []
  | some [] => init
  | some last => init ++ [last]

/-- The `SshHost` record built by `ListSshCommand::execute`
(src/cli/list_ssh.rs:17-24). -/
structure SshHost where
  name : Str
  hostname : Str
  user : Str
  port : Str
  identity_file : Str
deriving DecidableEq, Repr

/-- The fresh entry created on a `Host ` line: only the alias set, every
other field the empty string. -/
def newSshHost (alias_ : Str) : SshHost :=
  { name := alias_, hostname := [], user := [], port := [], identity_file := [] }

/-- The body of the `for line in content.lines()` loop of
`ListSshCommand::execute` (src/cli/list_ssh.rs:30-61): one line updates the
accumulated entries and the currently open entry. -/
def ssh_scan_step (hosts : List SshHost) (current_host : Option SshHost) (line : Str) :
    List SshHost × Option SshHost :=
  let line := trim line
  if startsWith "Host ".toList line then
    let hosts := match current_host with
      | some host => hosts ++ [host]
      | none => hosts
    let name := (words line).getD 1 []
    (hosts, some (newSshHost name))
  else
    match current_host with
    | some host =>
      if startsWith "HostName ".toList line then
        (hosts, some { host with hostname := (words line).getD 1 [] })
      else if startsWith "User ".toList line then
        (hosts, some { host with user := (words line).getD 1 [] })
      else if startsWith "Port ".toList line then
        (hosts, some { host with port := (words line).getD 1 [] })
      else if startsWith "IdentityFile ".toList line then
        (hosts, some { host with identity_file := (words line).getD 1 [] })
      else
        (hosts, some host)
    | none => (hosts, none)

/-- The whole `for` loop: fold `ssh_scan_step` over the lines. -/
def ssh_scan_lines : List Str → List SshHost → Option SshHost →
    List SshHost × Option SshHost
  | [], hosts, current_host => (hosts, current_host)
  | l :: ls, hosts, current_host =>
    let st := ssh_scan_step hosts current_host l
    ssh_scan_lines ls st.1 st.2

/-- The `// Save last host info` step (src/cli/list_ssh.rs:63-66): append
the still-open entry, if any, to the accumulated list. -/
def sshFinish (st : List SshHost × Option SshHost) : List SshHost :=
  match st.2 with
  | some host => st.1 ++ [host]
  | none => st.1

/-- `ListSshCommand::execute`, parsing phase (src/cli/list_ssh.rs:26-67):
scan the lines of the file content, then append the still-open entry. -/
def parse_ssh_config (content : Str) : List SshHost :=
  sshFinish (ssh_scan_lines (rustLines content) [] none)

/-- The `if let Ok(content) = fs::read_to_string(..)` guard
(src/cli/list_ssh.rs:29): an unreadable or missing file leaves the host
list empty rather than failing. -/
def parse_ssh_config_file (content : Option Str) : List SshHost :=
  match content with
  | some c => parse_ssh_config c
  | none => []

/-- The fixed append template of `AddSshCommand::execute`
(src/cli/add_ssh.rs:129-132):
a blank line, `Host <alias>`, then the four indented field lines, each
newline-terminated. -/
def render_ssh_entry (host hostname user port identity_file : Str) : Str :=
  '\n' :: ("Host ".toList ++ host) ++
  '\n' :: ("    HostName ".toList ++ hostname) ++
  '\n' :: ("    User ".toList ++ user) ++
  '\n' :: ("    Port ".toList ++ port) ++
  '\n' :: ("    IdentityFile ".toList ++ identity_file) ++ ['\n']

example : parse_ssh_config "Host a\n  HostName h.com\n  User u\nHost b\n".toList =
    [⟨"a".toList, "h.com".toList, "u".toList, [], []⟩,
     ⟨"b".toList, [], [], [], []⟩] := by decide

example : parse_ssh_config
    (render_ssh_entry "a".toList "h".toList "u".toList "22".toList "idf".toList) =
    [⟨"a".toList, "h".toList, "u".toList, "22".toList, "idf".toList⟩] := by decide

/-- `Profile` from src/config/mod.rs:32-37. -/
structure Profile where
  name : String
  email : String
  ssh_host : String
deriving DecidableEq, Repr

/-- `ProfileMap = HashMap<String, Profile>`, embedded as an association
list with the map operations used by the code (`contains_key`, `insert`
with overwrite, `remove`). -/
abbrev ProfileMap := List (String × Profile)

/-- `HashMap::get`-style lookup. -/
def pmFind : ProfileMap → String → Option Profile
  | [], _ => none
  | (k2, v) :: rest, k => if k2 = k then some v else pmFind rest k

/-- `HashMap::contains_key`. -/
def pmContains (m : ProfileMap) (k : String) : Bool := (pmFind m k).isSome

/-- `HashMap::insert`: overwrites the value when the key is present,
appends a binding otherwise. -/
def pmInsert : ProfileMap → String → Profile → ProfileMap
  | [], k, v => [(k, v)]
  | (k2, v2) :: rest, k, v =>
    if k2 = k then (k, v) :: rest else (k2, v2) :: pmInsert rest k v

/-- `HashMap::remove`. -/
def pmRemove : ProfileMap → String → ProfileMap
  | [], _ => []
  | (k2, v2) :: rest, k =>
    if k2 = k then pmRemove rest k else (k2, v2) :: pmRemove rest k

/-- `ConfigError(String)` from src/config/mod.rs:9-10. -/
structure ConfigError where
  msg : String
deriving DecidableEq, Repr

/-- The serialized `ConfigFile` (src/config/mod.rs:41-47): the optional
default-profile marker and the profile table. -/
structure ConfigFile where
  default_profile : Option String
  profiles : ProfileMap
deriving DecidableEq, Repr

/-- `ConfigFile::default()`: no default marker, no profiles. -/
def ConfigFile.default : ConfigFile := ⟨none, []⟩

/-- The state of the backing path: `file` is the parsed content at the
config path (`none` when the path does not exist) and `backups` records
every backup copy made, newest first. -/
structure Disk where
  file : Option ConfigFile
  backups : List ConfigFile
deriving DecidableEq, Repr

/-- Which filesystem primitives fail during a run: `copyFails` makes
`fs::copy` in `Config::backup` fail, `writeFails` makes `fs::write` in
`Config::save_profiles` fail, and `readFails` makes the
read-and-deserialize step of `Config::load_config_file` fail. -/
structure FsEnv where
  copyFails : Bool
  writeFails : Bool
  readFails : Bool
deriving DecidableEq, Repr

/-- The in-memory `Config` struct (src/config/mod.rs:53-56); the path is
represented by the `Disk` state passed to each operation. -/
structure Config where
  default_profile : Option String
deriving DecidableEq, Repr

/-- `Config::load_config_file` (src/config/mod.rs:76-85): a missing file
yields the default `ConfigFile`; a read or parse failure is an error. -/
def load_config_file (env : FsEnv) (d : Disk) : Except ConfigError ConfigFile :=
  match d.file with
  | none => .ok ConfigFile.default
  | some c =>
    if env.readFails then .error ⟨"Cannot read configuration file"⟩
    else .ok c

/-- `Config::backup` (src/config/mod.rs:151-161): when the backing path
exists, copy its content to a fresh backup path; a copy failure is an
error and the disk is untouched. The timestamped backup name is modelled
by prepending to `backups`. Returns the operation result together with
the disk afterwards. -/
def Config.backup (env : FsEnv) (d : Disk) : Except ConfigError Unit × Disk :=
  match d.file with
  | some c =>
    if env.copyFails then (.error ⟨"IO Error: copy failed"⟩, d)
    else (.ok (), { d with backups := c :: d.backups })
  | none => (.ok (), d)

/-- `Config::save_profiles` (src/config/mod.rs:97-116): back up first
(aborting on its failure), then serialize the profile map together with
the in-memory `default_profile` and write it to the backing path. The
process-wide mutex around the write phase is a no-op in this
single-threaded model. -/
def save_profiles (env : FsEnv) (cfg : Config) (profiles : ProfileMap) (d : Disk) :
    Except ConfigError Unit × Disk :=
  match Config.backup env d with
  | (.error e, d1) => (.error e, d1)
  | (.ok _, d1) =>
    if env.writeFails then (.error ⟨"IO Error: write failed"⟩, d1)
    else (.ok (), { d1 with file := some ⟨cfg.default_profile, profiles⟩ })

/-- `Config::add_profile` (src/config/mod.rs:118-125): load, insert
(overwriting any existing binding), save. -/
def add_profile (env : FsEnv) (cfg : Config) (name : String) (profile : Profile)
    (d : Disk) : Except ConfigError Unit × Disk :=
  match load_config_file env d with
  | .error e => (.error e, d)
  | .ok config_file =>
    save_profiles env cfg (pmInsert config_file.profiles name profile) d

/-- `Config::update_profile` (src/config/mod.rs:127-137): load, fail when
the key is absent, otherwise overwrite and save. -/
def update_profile (env : FsEnv) (cfg : Config) (name : String) (profile : Profile)
    (d : Disk) : Except ConfigError Unit × Disk :=
  match load_config_file env d with
  | .error e => (.error e, d)
  | .ok config_file =>
    if ¬ pmContains config_file.profiles name then
      (.error ⟨"Profile " ++ name ++ " does not exist."⟩, d)
    else
      save_profiles env cfg (pmInsert config_file.profiles name profile) d

/-- `Config::delete_profile` (src/config/mod.rs:139-149): load, fail when
the key is absent, otherwise remove and save. -/
def delete_profile (env : FsEnv) (cfg : Config) (name : String) (d : Disk) :
    Except ConfigError Unit × Disk :=
  match load_config_file env d with
  | .error e => (.error e, d)
  | .ok config_file =>
    if ¬ pmContains config_file.profiles name then
      (.error ⟨"Profile " ++ name ++ " does not exist."⟩, d)
    else
      save_profiles env cfg (pmRemove config_file.profiles name) d

/-- How `SwitchCommand::execute` chooses the profile to switch to. -/
inductive SwitchSelection where
  /-- No profiles exist: print an error message and return without
  switching (src/cli/switch.rs:113-116). -/
  | noProfiles : SwitchSelection
  /-- An explicit argument naming an existing profile. -/
  | explicitArg : String → SwitchSelection
  /-- An explicit argument naming a missing profile: print an error and
  return without switching (src/cli/switch.rs:124-132). -/
  | explicitNotFound : String → SwitchSelection
  /-- The stored default profile, used without prompting
  (src/cli/switch.rs:136-143). -/
  | byDefault : String → SwitchSelection
  /-- Interactive selection prompt (reached either when no default is set
  or when the stored default names a missing profile,
  src/cli/switch.rs:144-169). -/
  | interactive : SwitchSelection
deriving DecidableEq, Repr

/-- The profile-resolution control flow of `SwitchCommand::execute`
(src/cli/switch.rs:109-170): explicit argument first, then the stored
default when it names an existing profile, else the interactive prompt. -/
def switch_select (arg : Option String) (default_profile : Option String)
    (profiles_map : ProfileMap) : SwitchSelection :=
  if profiles_map.isEmpty then .noProfiles
  else
    match arg with
    | some specific =>
      if pmContains profiles_map specific then .explicitArg specific
      else .explicitNotFound specific
    | none =>
      match default_profile with
      | some default_name =>
        if pmContains profiles_map default_name then .byDefault default_name
        else .interactive
      | none => .interactive

/-- The error kind of `src/error/mod.rs` used by `validate_email`. -/
inductive GuseError where
  | ValidationError : String → GuseError
deriving DecidableEq, Repr

/-- `validate_email` (src/utils/mod.rs:6-16). The function compiles a fixed
RFC-style regex (whose compilation always succeeds, the pattern being a
constant valid expression) but never matches the input against it; the only
check actually applied to the input is `email.contains('@')`. -/
def validate_email (email : Str) : Except GuseError Unit :=
  if ¬ email.contains '@' then
    .error (.ValidationError "Email address must contain the at character.")
  else
    .ok ()

/-- Spec-side field update for an open SSH host entry, following the
claim text: a trimmed line beginning with `HostName `, `User `, `Port `
or `IdentityFile ` sets the corresponding field to its second
whitespace-separated token; all other lines are ignored. -/
def ssh_spec_field (t : Str) (e : SshHost) : SshHost :=
  if startsWith "HostName ".toList t then { e with hostname := (words t).getD 1 [] }
  else if startsWith "User ".toList t then { e with user := (words t).getD 1 [] }
  else if startsWith "Port ".toList t then { e with port := (words t).getD 1 [] }
  else if startsWith "IdentityFile ".toList t then { e with identity_file := (words t).getD 1 [] }
  else e

/-- Spec-side scanner, following the claim text as an explicit emitting
state machine: a trimmed `Host ` line closes the open entry (emitting it)
and opens a new one whose alias is the second whitespace-separated token;
other lines update the open entry; at end of input the open entry is
emitted. -/
def ssh_spec_scan : List Str → Option SshHost → List SshHost
  | [], openEntry =>
    (match openEntry with
     | some e => [e]
     | none => [])
  | l :: ls, openEntry =>
    let t := trim l
    if startsWith "Host ".toList t then
      (match openEntry with
       | some e => [e]
       | none => []) ++ ssh_spec_scan ls (some (newSshHost ((words t).getD 1 [])))
    else
      match openEntry with
      | none => ssh_spec_scan ls none
      | some e => ssh_spec_scan ls (some (ssh_spec_field t e))

/-- Spec-side parse of an SSH config text. -/
def ssh_spec_parse (content : Str) : List SshHost :=
  ssh_spec_scan (rustLines content) none

/-- The profile map the store currently holds: what `load_config_file`
yields on a readable disk (the default, empty, `ConfigFile` when the path
does not exist). -/
def stored_profiles (d : Disk) : ProfileMap :=
  (d.file.getD ConfigFile.default).profiles

/-- A single whitespace-free nonempty token, as required of the values
filled into the SSH host template. -/
def isToken (s : Str) : Bool :=
  !s.isEmpty && s.all (fun c => !c.isWhitespace)

theorem startsWith_iff (p : Str) : ∀ s : Str, startsWith p s = true ↔ ∃ r, s = p ++ r := by
  induction p with
  | nil => intro s; simp [startsWith]
  | cons a as ih =>
    intro s
    cases s with
    | nil =>
      simp [startsWith]
    | cons c cs =>
      simp only [startsWith, Bool.and_eq_true, beq_iff_eq, ih, List.cons_append,
        List.cons.injEq]
      constructor
      · rintro ⟨rfl, r, rfl⟩; exact ⟨r, rfl, rfl⟩
      · rintro ⟨r, rfl, rfl⟩; exact ⟨rfl, r, rfl⟩

theorem pmFind_pmInsert_self (m : ProfileMap) (k : String) (v : Profile) :
    pmFind (pmInsert m k v) k = some v := by
  induction m with
  | nil => simp [pmInsert, pmFind]
  | cons kv rest ih =>
    obtain ⟨k2, v2⟩ := kv
    by_cases h : k2 = k
    · simp [pmInsert, pmFind, h]
    · simp [pmInsert, pmFind, h, ih]

/-- Claim C2: `parse_origin_url` maps `git@github.com:alice/repo.git` and
`https://github.com/alice/repo.git` to owner `alice`, repo `repo`; the
empty string and `ftp://x/y` fail; and every URL starting with neither
`git@` nor `https://` fails. -/
theorem parse_origin_url_examples :
    parse_origin_url "git@github.com:alice/repo.git".toList =
      .ok ("alice".toList, "repo".toList) ∧
    parse_origin_url "https://github.com/alice/repo.git".toList =
      .ok ("alice".toList, "repo".toList) ∧
    isErr (parse_origin_url "".toList) = true ∧
    isErr (parse_origin_url "ftp://x/y".toList) = true ∧
    ∀ url : Str, startsWith "git@".toList url = false →
      startsWith "https://".toList url = false →
      isErr (parse_origin_url url) = true := by
  refine ⟨by decide, by decide, by decide, by decide, ?_⟩
  intro url h1 h2
  by_cases h0 : url = []
  · subst h0; decide
  · have h1b : startsWith ['g', 'i', 't', '@'] url = false := h1
    have h2b : startsWith ['h', 't', 't', 'p', 's', ':', '/', '/'] url = false := h2
    simp [parse_origin_url, h0, h1b, h2b, isErr]

/-- Witness for claim C2's universally quantified clause, at `git://x/y`,
a scheme recognized by neither rule. -/
theorem parse_origin_url_examples_witness :
    isErr (parse_origin_url "git://x/y".toList) = true :=
  parse_origin_url_examples.2.2.2.2 "git://x/y".toList (by decide) (by decide)

/-- Claim C9: email validation is exactly the presence of an `@`
character — the compiled regex is never consulted — so `@@@` and `a@`
pass and an address without `@` fails. -/
theorem validate_email_iff_contains_at :
    (∀ email : Str, validate_email email = .ok () ↔ email.contains '@' = true) ∧
    validate_email "@@@".toList = .ok () ∧
    validate_email "a@".toList = .ok () ∧
    isErr (validate_email "aexample.com".toList) = true := by
  refine ⟨?_, by decide, by decide, by decide⟩
  intro email
  by_cases h : email.contains '@' = true
  · simp [validate_email, h]
  · simp [validate_email, h]

/-- Claim C7: with a non-empty profile map and no explicit argument,
`switch` selects the stored default without prompting when the default
key exists, and degrades to the interactive prompt (rather than failing)
when the stored default is a dangling reference. -/
theorem switch_default_selection (m : ProfileMap) (dk : String)
    (hne : m.isEmpty = false) :
    (pmContains m dk = true → switch_select none (some dk) m = .byDefault dk) ∧
    (pmContains m dk = false → switch_select none (some dk) m = .interactive) := by
  constructor
  · intro h; simp [switch_select, hne, h]
  · intro h; simp [switch_select, hne, h]

/-- Witness for claim C7: a two-profile map with default `p1` selects
`p1` by default, and with dangling default `p9` falls back to the
interactive prompt. -/
theorem switch_default_selection_witness :
    switch_select none (some "p1")
      [("p1", ⟨"A", "a@x.com", "gh-a"⟩), ("p2", ⟨"B", "b@x.com", "gh-b"⟩)] =
      .byDefault "p1" ∧
    switch_select none (some "p9")
      [("p1", ⟨"A", "a@x.com", "gh-a"⟩), ("p2", ⟨"B", "b@x.com", "gh-b"⟩)] =
      .interactive := by
  refine ⟨(switch_default_selection _ "p1" ?_).1 ?_, (switch_default_selection _ "p9" ?_).2 ?_⟩ <;>
    decide

/-- Claim C1, counterexample: `git@host:x:a/b` contains two `:` and is
NOT handled by splitting on the first `:` only (which would give owner
`x:a` and repo `b`); the code splits on every `:`, sees three parts, and
falls through to the unsupported-format error. -/
theorem parse_origin_url_multi_colon_counterexample :
    parse_origin_url "git@host:x:a/b".toList =
      .error ⟨"Unsupported remote repository URL format"⟩ ∧
    parse_origin_url "git@host:x:a/b".toList ≠
      .ok ("x:a".toList, "b".toList) := by
  decide

/-- Claim C1, amended: for a URL starting with `git@`, the code splits on
EVERY `:` and requires exactly two parts; with more than one `:` the
`git@` rule does not apply and the parse fails with a format error.
When there are exactly two parts, the part after the `:` has trailing
`.git` stripped and is split on `/`; the first two segments are owner and
repo, and fewer than two segments is a format error. -/
theorem parse_origin_url_git_at_amended (url : Str)
    (hgit : startsWith "git@".toList url = true) :
    ((splitOnChar ':' url).length ≠ 2 → isErr (parse_origin_url url) = true) ∧
    ((splitOnChar ':' url).length = 2 →
      parse_origin_url url =
        match splitOnChar '/'
            (trim_end_matches_git ((splitOnChar ':' url).getD 1 [])) with
        | owner :: repo :: _ => .ok (owner, repo)
        | _ => .error ⟨"Invalid remote repository URL format"⟩) := by
  obtain ⟨rest, rfl⟩ := (startsWith_iff "git@".toList url).mp hgit
  have hg : startsWith ['g', 'i', 't', '@'] ('g' :: 'i' :: 't' :: '@' :: rest) = true := by
    simp [startsWith]
  have h2c : startsWith ['h', 't', 't', 'p', 's', ':', '/', '/']
      ('g' :: 'i' :: 't' :: '@' :: rest) = false := rfl
  constructor
  · intro hne
    have hne2 : (splitOnChar ':' ('g' :: 'i' :: 't' :: '@' :: rest)).length ≠ 2 := hne
    simp [parse_origin_url, hg, hne2, h2c, isErr]
  · intro heq
    have heq2 : (splitOnChar ':' ('g' :: 'i' :: 't' :: '@' :: rest)).length = 2 := heq
    simp [parse_origin_url, hg, heq2]

/-- Witness for claim C1's amended theorem at the three-part URL
`git@host:x:a/b` (first clause) and the well-formed `git@gh:o/r.git`
(second clause). -/
theorem parse_origin_url_git_at_amended_witness :
    isErr (parse_origin_url "git@host:x:a/b".toList) = true ∧
    parse_origin_url "git@gh:o/r.git".toList = .ok ("o".toList, "r".toList) := by
  constructor
  · exact (parse_origin_url_git_at_amended "git@host:x:a/b".toList (by decide)).1 (by decide)
  · have h := (parse_origin_url_git_at_amended "git@gh:o/r.git".toList (by decide)).2 (by decide)
    simpa using h

/-- Claim C4: `Config::add_profile` is an upsert — under non-failing
filesystem primitives it succeeds for every key, profile and store state,
and adding twice with the same key succeeds and leaves the stored map
sending that key to the second profile. -/
theorem add_profile_upsert (env : FsEnv) (cfg : Config) (k : String)
    (p1 p2 : Profile) (d : Disk)
    (hc : env.copyFails = false) (hw : env.writeFails = false)
    (hr : env.readFails = false) :
    (add_profile env cfg k p1 d).1 = .ok () ∧
    (add_profile env cfg k p2 (add_profile env cfg k p1 d).2).1 = .ok () ∧
    (add_profile env cfg k p2 (add_profile env cfg k p1 d).2).2.file =
      some ⟨cfg.default_profile, pmInsert (pmInsert (stored_profiles d) k p1) k p2⟩ ∧
    pmFind (pmInsert (pmInsert (stored_profiles d) k p1) k p2) k = some p2 := by
  obtain ⟨df, db⟩ := d
  cases df with
  | none =>
    refine ⟨?_, ?_, ?_, ?_⟩ <;>
      simp [add_profile, load_config_file, save_profiles, Config.backup,
        stored_profiles, hc, hw, hr, pmFind_pmInsert_self]
  | some c =>
    refine ⟨?_, ?_, ?_, ?_⟩ <;>
      simp [add_profile, load_config_file, save_profiles, Config.backup,
        stored_profiles, hc, hw, hr, pmFind_pmInsert_self]

/-- Witness for claim C4 at a concrete environment, key and disk. -/
theorem add_profile_upsert_witness :
    (add_profile ⟨false, false, false⟩ ⟨none⟩ "work"
      ⟨"Alice", "a@x.com", "gh-a"⟩ ⟨none, []⟩).1 = .ok () :=
  (add_profile_upsert ⟨false, false, false⟩ ⟨none⟩ "work"
    ⟨"Alice", "a@x.com", "gh-a"⟩ ⟨"Bob", "b@x.com", "gh-b"⟩ ⟨none, []⟩
    rfl rfl rfl).1

/-- Claim C5: on an absent key, `Config::update_profile` and
`Config::delete_profile` fail with the not-found error and return with
the disk exactly as before — no write and no backup copy. -/
theorem update_delete_absent_key (env : FsEnv) (cfg : Config) (k : String)
    (p : Profile) (d : Disk) (hr : env.readFails = false)
    (habs : pmContains (stored_profiles d) k = false) :
    update_profile env cfg k p d =
      (.error ⟨"Profile " ++ k ++ " does not exist."⟩, d) ∧
    delete_profile env cfg k d =
      (.error ⟨"Profile " ++ k ++ " does not exist."⟩, d) := by
  cases hd : d.file with
  | none =>
    have habs2 : pmContains ConfigFile.default.profiles k = false := by
      simp [stored_profiles, hd] at habs
      simpa [ConfigFile.default] using habs
    constructor <;>
      simp [update_profile, delete_profile, load_config_file, hd, hr, habs2]
  | some c =>
    have habs2 : pmContains c.profiles k = false := by
      simpa [stored_profiles, hd] using habs
    constructor <;>
      simp [update_profile, delete_profile, load_config_file, hd, hr, habs2]

/-- Witness for claim C5 at a one-profile store and the absent key
`ghost`. -/
theorem update_delete_absent_key_witness :
    update_profile ⟨false, false, false⟩ ⟨none⟩ "ghost"
      ⟨"G", "g@x.com", "gh-g"⟩
      ⟨some ⟨none, [("work", ⟨"A", "a@x.com", "gh-a"⟩)]⟩, []⟩ =
      (.error ⟨"Profile " ++ "ghost" ++ " does not exist."⟩,
       ⟨some ⟨none, [("work", ⟨"A", "a@x.com", "gh-a"⟩)]⟩, []⟩) :=
  (update_delete_absent_key ⟨false, false, false⟩ ⟨none⟩ "ghost"
    ⟨"G", "g@x.com", "gh-g"⟩
    ⟨some ⟨none, [("work", ⟨"A", "a@x.com", "gh-a"⟩)]⟩, []⟩
    rfl (by decide)).1

/-- Claim C6: when the backing path exists, `Config::save_profiles` backs
the old content up before writing — on success the backup list gains the
pre-write content and only then is the file replaced — and a backup-copy
failure aborts the save with an error, leaving the file content
unwritten. -/
theorem save_profiles_backup_first (env : FsEnv) (cfg : Config)
    (profiles : ProfileMap) (d : Disk) (c : ConfigFile) (hf : d.file = some c) :
    (env.copyFails = true →
      save_profiles env cfg profiles d = (.error ⟨"IO Error: copy failed"⟩, d)) ∧
    (env.copyFails = false → env.writeFails = false →
      save_profiles env cfg profiles d =
        (.ok (), ⟨some ⟨cfg.default_profile, profiles⟩, c :: d.backups⟩)) := by
  obtain ⟨df, db⟩ := d
  simp only [Disk.mk.injEq] at hf ⊢
  subst hf
  constructor
  · intro hcopy
    simp [save_profiles, Config.backup, hcopy]
  · intro hcopy hwrite
    simp [save_profiles, Config.backup, hcopy, hwrite]

/-- Witness for claim C6: a failing copy aborts the save and leaves the
disk untouched. -/
theorem save_profiles_backup_first_witness :
    save_profiles ⟨true, false, false⟩ ⟨none⟩ [] ⟨some ⟨none, []⟩, []⟩ =
      (.error ⟨"IO Error: copy failed"⟩, ⟨some ⟨none, []⟩, []⟩) :=
  (save_profiles_backup_first ⟨true, false, false⟩ ⟨none⟩ [] ⟨some ⟨none, []⟩, []⟩
    ⟨none, []⟩ rfl).1 rfl

/-- Claim C10: `Config::delete_profile` on a present key removes only that
profile and persists with the in-memory `default_profile` unchanged —
even when the deleted key is the default itself, leaving a dangling
default in the stored file. -/
theorem delete_profile_preserves_default (env : FsEnv) (cfg : Config)
    (k : String) (d : Disk)
    (hc : env.copyFails = false) (hw : env.writeFails = false)
    (hr : env.readFails = false)
    (hk : pmContains (stored_profiles d) k = true) :
    (delete_profile env cfg k d).1 = .ok () ∧
    (delete_profile env cfg k d).2.file =
      some ⟨cfg.default_profile, pmRemove (stored_profiles d) k⟩ := by
  obtain ⟨df, db⟩ := d
  cases df with
  | none =>
    simp [stored_profiles, ConfigFile.default, pmContains, pmFind] at hk
  | some c =>
    have hk2 : pmContains c.profiles k = true := by
      simpa [stored_profiles] using hk
    constructor <;>
      simp [delete_profile, load_config_file, save_profiles, Config.backup,
        stored_profiles, hc, hw, hr, hk2]

/-- Witness for claim C10: deleting the key that IS the current default
persists a dangling `default_profile` reference. -/
theorem delete_profile_preserves_default_witness :
    (delete_profile ⟨false, false, false⟩ ⟨some "work"⟩ "work"
      ⟨some ⟨some "work", [("work", ⟨"A", "a@x.com", "gh-a"⟩)]⟩, []⟩).2.file =
      some ⟨some "work", []⟩ := by
  have h := (delete_profile_preserves_default ⟨false, false, false⟩ ⟨some "work"⟩
    "work" ⟨some ⟨some "work", [("work", ⟨"A", "a@x.com", "gh-a"⟩)]⟩, []⟩
    rfl rfl rfl (by decide)).2
  simpa using h

theorem ssh_scan_lines_spec (ls : List Str) :
    ∀ (hosts : List SshHost) (cur : Option SshHost),
      sshFinish (ssh_scan_lines ls hosts cur) = hosts ++ ssh_spec_scan ls cur := by
  induction ls with
  | nil =>
    intro hosts cur
    cases cur <;> simp [ssh_scan_lines, sshFinish, ssh_spec_scan]
  | cons l ls ih =>
    intro hosts cur
    by_cases hH : startsWith ['H', 'o', 's', 't', ' '] (trim l) = true
    · cases cur with
      | none => simp [ssh_scan_lines, ssh_scan_step, ssh_spec_scan, hH, ih]
      | some e => simp [ssh_scan_lines, ssh_scan_step, ssh_spec_scan, hH, ih]
    · cases cur with
      | none => simp [ssh_scan_lines, ssh_scan_step, ssh_spec_scan, hH, ih]
      | some e =>
        by_cases h1 : startsWith ['H', 'o', 's', 't', 'N', 'a', 'm', 'e', ' '] (trim l) = true <;>
        by_cases h2 : startsWith ['U', 's', 'e', 'r', ' '] (trim l) = true <;>
        by_cases h3 : startsWith ['P', 'o', 'r', 't', ' '] (trim l) = true <;>
        by_cases h4 : startsWith
          ['I', 'd', 'e', 'n', 't', 'i', 't', 'y', 'F', 'i', 'l', 'e', ' '] (trim l) = true <;>
        simp [ssh_scan_lines, ssh_scan_step, ssh_spec_scan, ssh_spec_field,
          hH, h1, h2, h3, h4, ih]

/-- Claim C3: for every input text, the SSH config parser of
`ListSshCommand::execute` behaves exactly as the claimed line scan — a
trimmed `Host ` line appends the open entry and opens a new one keyed by
the second whitespace token, recognized field lines set the matching field
of the open entry, other lines are ignored, and at end of input the open
entry is appended — and an empty or missing file yields the empty
sequence rather than an error. -/
theorem parse_ssh_config_matches_spec :
    (∀ content : Str, parse_ssh_config content = ssh_spec_parse content) ∧
    parse_ssh_config [] = [] ∧
    parse_ssh_config_file none = [] := by
  refine ⟨?_, rfl, rfl⟩
  intro content
  simpa [parse_ssh_config, ssh_spec_parse] using
    ssh_scan_lines_spec (rustLines content) [] none

theorem isToken_ne_nil {s : Str} (h : isToken s = true) : s ≠ [] := by
  simp only [isToken, Bool.and_eq_true, Bool.not_eq_true', List.isEmpty_eq_false] at h
  exact h.1

theorem isToken_no_ws {s : Str} (h : isToken s = true) :
    ∀ c ∈ s, c.isWhitespace = false := by
  simp only [isToken, Bool.and_eq_true, List.all_eq_true, Bool.not_eq_true'] at h
  exact h.2

theorem startsWith_self_append (p r : Str) : startsWith p (p ++ r) = true :=
  (startsWith_iff p (p ++ r)).mpr ⟨r, rfl⟩

theorem wordsAux_no_ws (h : Str) (hws : ∀ c ∈ h, c.isWhitespace = false) :
    ∀ acc : Str,
      wordsAux h acc =
        if acc.reverse ++ h = [] then [] else [acc.reverse ++ h] := by
  induction h with
  | nil =>
    intro acc
    by_cases ha : acc = []
    · subst ha; simp [wordsAux]
    · simp [wordsAux, ha]
  | cons c cs ih =>
    intro acc
    have hc : c.isWhitespace = false := hws c (List.mem_cons_self c cs)
    have hcs : ∀ x ∈ cs, x.isWhitespace = false := fun x hx =>
      hws x (List.mem_cons_of_mem c hx)
    simp only [wordsAux, hc, Bool.false_eq_true, if_false, ih hcs (c :: acc)]
    simp [List.append_assoc]

theorem trimRight_token (a f : Str) (hne : f ≠ [])
    (hws : ∀ c ∈ f, c.isWhitespace = false) : trimRight (a ++ f) = a ++ f := by
  unfold trimRight
  rw [List.reverse_append]
  cases hrev : f.reverse with
  | nil => exact absurd (by simpa using hrev) hne
  | cons d t =>
    have hd : d ∈ f := by
      have : d ∈ f.reverse := by rw [hrev]; exact List.mem_cons_self d t
      simpa using this
    have hdw : d.isWhitespace = false := hws d hd
    rw [List.cons_append, List.dropWhile_cons, hdw]
    simp only [Bool.false_eq_true, if_false]
    have : (d :: (t ++ a.reverse)).reverse = a ++ (d :: t).reverse := by
      simp
    rw [this, ← hrev]
    simp

theorem stripCR_token (a f : Str) (hne : f ≠ [])
    (hws : ∀ c ∈ f, c.isWhitespace = false) : stripCR (a ++ f) = a ++ f := by
  unfold stripCR
  rw [if_neg]
  rw [List.getLast?_append_of_ne_nil a hne,
    List.getLast?_eq_getLast_of_ne_nil hne]
  intro hcr
  have hmem : f.getLast hne ∈ f := List.getLast_mem hne
  have := hws _ hmem
  rw [Option.some.injEq] at hcr
  rw [hcr] at this
  exact absurd this (by decide)

theorem splitOnChar_cons_sep (sep : Char) (b : Str) :
    splitOnChar sep (sep :: b) = [] :: splitOnChar sep b := by
  simp [splitOnChar]

theorem splitOnChar_append (sep : Char) (a b : Str) (ha : ∀ c ∈ a, ¬ c = sep) :
    splitOnChar sep (a ++ sep :: b) = a :: splitOnChar sep b := by
  induction a with
  | nil => simpa using splitOnChar_cons_sep sep b
  | cons c cs ih =>
    have hc : ¬ c = sep := ha c (List.mem_cons_self c cs)
    have hcs : ∀ x ∈ cs, ¬ x = sep := fun x hx => ha x (List.mem_cons_of_mem c hx)
    rw [List.cons_append]
    simp only [splitOnChar, hc, if_false, ih hcs]

theorem words_pre (w f : Str) (hne : f ≠ []) (hws : ∀ c ∈ f, c.isWhitespace = false)
    (hpre : words (w ++ ' ' :: f) = w :: wordsAux f []) :
    words (w ++ ' ' :: f) = [w, f] := by
  rw [hpre, wordsAux_no_ws f hws []]
  simp [hne]

theorem no_nl (pre f : Str) (hpre : ∀ c ∈ pre, c ≠ '\n')
    (hws : ∀ c ∈ f, c.isWhitespace = false) : ∀ c ∈ pre ++ f, ¬ c = '\n' := by
  intro c hc
  rcases List.mem_append.mp hc with h | h
  · exact hpre c h
  · intro heq
    have := hws c h
    rw [heq] at this
    exact absurd this (by decide)

theorem rustLines_of_split (s : Str) (init0 : List Str)
    (h : splitOnChar '\n' s = init0 ++ [[]]) :
    rustLines s = init0.map stripCR := by
  simp only [rustLines]
  rw [h, List.getLast?_append_of_ne_nil init0 (by simp : ([[]] : List Str) ≠ []),
    List.dropLast_concat]
  rfl

theorem scan_lines_cons (l : Str) (ls : List Str) (hosts : List SshHost)
    (cur : Option SshHost) :
    ssh_scan_lines (l :: ls) hosts cur =
      ssh_scan_lines ls (ssh_scan_step hosts cur l).1 (ssh_scan_step hosts cur l).2 := rfl

theorem scan_lines_nil_line (ls : List Str) (hosts : List SshHost)
    (cur : Option SshHost) :
    ssh_scan_lines ([] :: ls) hosts cur = ssh_scan_lines ls hosts cur := by
  cases cur <;> rfl

theorem scan_lines_host (ls : List Str) (hosts : List SshHost) (f : Str)
    (hne : f ≠ []) (hws : ∀ c ∈ f, c.isWhitespace = false) :
    ssh_scan_lines ((['H', 'o', 's', 't', ' '] ++ f) :: ls) hosts none =
      ssh_scan_lines ls hosts (some (newSshHost f)) := by
  have htrim : trim ('H' :: 'o' :: 's' :: 't' :: ' ' :: f) =
      'H' :: 'o' :: 's' :: 't' :: ' ' :: f := by
    show trimRight (trimLeft (['H', 'o', 's', 't', ' '] ++ f)) = _
    have hl : trimLeft (['H', 'o', 's', 't', ' '] ++ f) = ['H', 'o', 's', 't', ' '] ++ f := rfl
    rw [hl]
    exact trimRight_token ['H', 'o', 's', 't', ' '] f hne hws
  have hsw : startsWith ['H', 'o', 's', 't', ' '] ('H' :: 'o' :: 's' :: 't' :: ' ' :: f) =
      true := startsWith_self_append ['H', 'o', 's', 't', ' '] f
  have hwords : words ('H' :: 'o' :: 's' :: 't' :: ' ' :: f) = [['H', 'o', 's', 't'], f] :=
    words_pre ['H', 'o', 's', 't'] f hne hws rfl
  have hstep : ssh_scan_step hosts none (['H', 'o', 's', 't', ' '] ++ f) =
      (hosts, some (newSshHost f)) := by
    simp [ssh_scan_step, htrim, hsw, hwords]
  rw [scan_lines_cons, hstep]

theorem scan_lines_hostname (ls : List Str) (hosts : List SshHost) (e : SshHost)
    (f : Str) (hne : f ≠ []) (hws : ∀ c ∈ f, c.isWhitespace = false) :
    ssh_scan_lines
        (([' ', ' ', ' ', ' ', 'H', 'o', 's', 't', 'N', 'a', 'm', 'e', ' '] ++ f) :: ls)
        hosts (some e) =
      ssh_scan_lines ls hosts (some { e with hostname := f }) := by
  have htrim : trim
      (' ' :: ' ' :: ' ' :: ' ' :: 'H' :: 'o' :: 's' :: 't' :: 'N' :: 'a' :: 'm' :: 'e' :: ' '
        :: f) =
      'H' :: 'o' :: 's' :: 't' :: 'N' :: 'a' :: 'm' :: 'e' :: ' ' :: f := by
    show trimRight (trimLeft _) = _
    have hl : trimLeft
        (' ' :: ' ' :: ' ' :: ' ' :: 'H' :: 'o' :: 's' :: 't' :: 'N' :: 'a' :: 'm' :: 'e'
          :: ' ' :: f) =
        'H' :: 'o' :: 's' :: 't' :: 'N' :: 'a' :: 'm' :: 'e' :: ' ' :: f := rfl
    rw [hl]
    exact trimRight_token ['H', 'o', 's', 't', 'N', 'a', 'm', 'e', ' '] f hne hws
  have hswHost : startsWith ['H', 'o', 's', 't', ' ']
      ('H' :: 'o' :: 's' :: 't' :: 'N' :: 'a' :: 'm' :: 'e' :: ' ' :: f) = false := rfl
  have hswHN : startsWith ['H', 'o', 's', 't', 'N', 'a', 'm', 'e', ' ']
      ('H' :: 'o' :: 's' :: 't' :: 'N' :: 'a' :: 'm' :: 'e' :: ' ' :: f) = true :=
    startsWith_self_append ['H', 'o', 's', 't', 'N', 'a', 'm', 'e', ' '] f
  have hwords : words ('H' :: 'o' :: 's' :: 't' :: 'N' :: 'a' :: 'm' :: 'e' :: ' ' :: f) =
      [['H', 'o', 's', 't', 'N', 'a', 'm', 'e'], f] :=
    words_pre ['H', 'o', 's', 't', 'N', 'a', 'm', 'e'] f hne hws rfl
  have hstep : ssh_scan_step hosts (some e)
      ([' ', ' ', ' ', ' ', 'H', 'o', 's', 't', 'N', 'a', 'm', 'e', ' '] ++ f) =
      (hosts, some { e with hostname := f }) := by
    simp [ssh_scan_step, htrim, hswHost, hswHN, hwords]
  rw [scan_lines_cons, hstep]

theorem scan_lines_user (ls : List Str) (hosts : List SshHost) (e : SshHost)
    (f : Str) (hne : f ≠ []) (hws : ∀ c ∈ f, c.isWhitespace = false) :
    ssh_scan_lines (([' ', ' ', ' ', ' ', 'U', 's', 'e', 'r', ' '] ++ f) :: ls)
        hosts (some e) =
      ssh_scan_lines ls hosts (some { e with user := f }) := by
  have htrim : trim (' ' :: ' ' :: ' ' :: ' ' :: 'U' :: 's' :: 'e' :: 'r' :: ' ' :: f) =
      'U' :: 's' :: 'e' :: 'r' :: ' ' :: f := by
    show trimRight (trimLeft _) = _
    have hl : trimLeft (' ' :: ' ' :: ' ' :: ' ' :: 'U' :: 's' :: 'e' :: 'r' :: ' ' :: f) =
        'U' :: 's' :: 'e' :: 'r' :: ' ' :: f := rfl
    rw [hl]
    exact trimRight_token ['U', 's', 'e', 'r', ' '] f hne hws
  have hswHost : startsWith ['H', 'o', 's', 't', ' ']
      ('U' :: 's' :: 'e' :: 'r' :: ' ' :: f) = false := rfl
  have hswHN : startsWith ['H', 'o', 's', 't', 'N', 'a', 'm', 'e', ' ']
      ('U' :: 's' :: 'e' :: 'r' :: ' ' :: f) = false := rfl
  have hswU : startsWith ['U', 's', 'e', 'r', ' '] ('U' :: 's' :: 'e' :: 'r' :: ' ' :: f) =
      true := startsWith_self_append ['U', 's', 'e', 'r', ' '] f
  have hwords : words ('U' :: 's' :: 'e' :: 'r' :: ' ' :: f) = [['U', 's', 'e', 'r'], f] :=
    words_pre ['U', 's', 'e', 'r'] f hne hws rfl
  have hstep : ssh_scan_step hosts (some e)
      ([' ', ' ', ' ', ' ', 'U', 's', 'e', 'r', ' '] ++ f) =
      (hosts, some { e with user := f }) := by
    simp [ssh_scan_step, htrim, hswHost, hswHN, hswU, hwords]
  rw [scan_lines_cons, hstep]

theorem scan_lines_port (ls : List Str) (hosts : List SshHost) (e : SshHost)
    (f : Str) (hne : f ≠ []) (hws : ∀ c ∈ f, c.isWhitespace = false) :
    ssh_scan_lines (([' ', ' ', ' ', ' ', 'P', 'o', 'r', 't', ' '] ++ f) :: ls)
        hosts (some e) =
      ssh_scan_lines ls hosts (some { e with port := f }) := by
  have htrim : trim (' ' :: ' ' :: ' ' :: ' ' :: 'P' :: 'o' :: 'r' :: 't' :: ' ' :: f) =
      'P' :: 'o' :: 'r' :: 't' :: ' ' :: f := by
    show trimRight (trimLeft _) = _
    have hl : trimLeft (' ' :: ' ' :: ' ' :: ' ' :: 'P' :: 'o' :: 'r' :: 't' :: ' ' :: f) =
        'P' :: 'o' :: 'r' :: 't' :: ' ' :: f := rfl
    rw [hl]
    exact trimRight_token ['P', 'o', 'r', 't', ' '] f hne hws
  have hswHost : startsWith ['H', 'o', 's', 't', ' ']
      ('P' :: 'o' :: 'r' :: 't' :: ' ' :: f) = false := rfl
  have hswHN : startsWith ['H', 'o', 's', 't', 'N', 'a', 'm', 'e', ' ']
      ('P' :: 'o' :: 'r' :: 't' :: ' ' :: f) = false := rfl
  have hswU : startsWith ['U', 's', 'e', 'r', ' ']
      ('P' :: 'o' :: 'r' :: 't' :: ' ' :: f) = false := rfl
  have hswP : startsWith ['P', 'o', 'r', 't', ' '] ('P' :: 'o' :: 'r' :: 't' :: ' ' :: f) =
      true := startsWith_self_append ['P', 'o', 'r', 't', ' '] f
  have hwords : words ('P' :: 'o' :: 'r' :: 't' :: ' ' :: f) = [['P', 'o', 'r', 't'], f] :=
    words_pre ['P', 'o', 'r', 't'] f hne hws rfl
  have hstep : ssh_scan_step hosts (some e)
      ([' ', ' ', ' ', ' ', 'P', 'o', 'r', 't', ' '] ++ f) =
      (hosts, some { e with port := f }) := by
    simp [ssh_scan_step, htrim, hswHost, hswHN, hswU, hswP, hwords]
  rw [scan_lines_cons, hstep]

theorem scan_lines_idfile (ls : List Str) (hosts : List SshHost) (e : SshHost)
    (f : Str) (hne : f ≠ []) (hws : ∀ c ∈ f, c.isWhitespace = false) :
    ssh_scan_lines
        (([' ', ' ', ' ', ' ', 'I', 'd', 'e', 'n', 't', 'i', 't', 'y', 'F', 'i', 'l', 'e', ' ']
          ++ f) :: ls) hosts (some e) =
      ssh_scan_lines ls hosts (some { e with identity_file := f }) := by
  have htrim : trim
      (' ' :: ' ' :: ' ' :: ' ' :: 'I' :: 'd' :: 'e' :: 'n' :: 't' :: 'i' :: 't' :: 'y'
        :: 'F' :: 'i' :: 'l' :: 'e' :: ' ' :: f) =
      'I' :: 'd' :: 'e' :: 'n' :: 't' :: 'i' :: 't' :: 'y' :: 'F' :: 'i' :: 'l' :: 'e'
        :: ' ' :: f := by
    show trimRight (trimLeft _) = _
    have hl : trimLeft
        (' ' :: ' ' :: ' ' :: ' ' :: 'I' :: 'd' :: 'e' :: 'n' :: 't' :: 'i' :: 't' :: 'y'
          :: 'F' :: 'i' :: 'l' :: 'e' :: ' ' :: f) =
        'I' :: 'd' :: 'e' :: 'n' :: 't' :: 'i' :: 't' :: 'y' :: 'F' :: 'i' :: 'l' :: 'e'
          :: ' ' :: f := rfl
    rw [hl]
    exact trimRight_token ['I', 'd', 'e', 'n', 't', 'i', 't', 'y', 'F', 'i', 'l', 'e', ' ']
      f hne hws
  have hswHost : startsWith ['H', 'o', 's', 't', ' ']
      ('I' :: 'd' :: 'e' :: 'n' :: 't' :: 'i' :: 't' :: 'y' :: 'F' :: 'i' :: 'l' :: 'e'
        :: ' ' :: f) = false := rfl
  have hswHN : startsWith ['H', 'o', 's', 't', 'N', 'a', 'm', 'e', ' ']
      ('I' :: 'd' :: 'e' :: 'n' :: 't' :: 'i' :: 't' :: 'y' :: 'F' :: 'i' :: 'l' :: 'e'
        :: ' ' :: f) = false := rfl
  have hswU : startsWith ['U', 's', 'e', 'r', ' ']
      ('I' :: 'd' :: 'e' :: 'n' :: 't' :: 'i' :: 't' :: 'y' :: 'F' :: 'i' :: 'l' :: 'e'
        :: ' ' :: f) = false := rfl
  have hswP : startsWith ['P', 'o', 'r', 't', ' ']
      ('I' :: 'd' :: 'e' :: 'n' :: 't' :: 'i' :: 't' :: 'y' :: 'F' :: 'i' :: 'l' :: 'e'
        :: ' ' :: f) = false := rfl
  have hswI : startsWith ['I', 'd', 'e', 'n', 't', 'i', 't', 'y', 'F', 'i', 'l', 'e', ' ']
      ('I' :: 'd' :: 'e' :: 'n' :: 't' :: 'i' :: 't' :: 'y' :: 'F' :: 'i' :: 'l' :: 'e'
        :: ' ' :: f) = true :=
    startsWith_self_append ['I', 'd', 'e', 'n', 't', 'i', 't', 'y', 'F', 'i', 'l', 'e', ' '] f
  have hwords : words
      ('I' :: 'd' :: 'e' :: 'n' :: 't' :: 'i' :: 't' :: 'y' :: 'F' :: 'i' :: 'l' :: 'e'
        :: ' ' :: f) =
      [['I', 'd', 'e', 'n', 't', 'i', 't', 'y', 'F', 'i', 'l', 'e'], f] :=
    words_pre ['I', 'd', 'e', 'n', 't', 'i', 't', 'y', 'F', 'i', 'l', 'e'] f hne hws rfl
  have hstep : ssh_scan_step hosts (some e)
      ([' ', ' ', ' ', ' ', 'I', 'd', 'e', 'n', 't', 'i', 't', 'y', 'F', 'i', 'l', 'e', ' ']
        ++ f) =
      (hosts, some { e with identity_file := f }) := by
    simp [ssh_scan_step, htrim, hswHost, hswHN, hswU, hswP, hswI, hwords]
  rw [scan_lines_cons, hstep]

/-- Claim C8: rendering an SSH host entry with the fixed append template
of `AddSshCommand::execute` and parsing it back with the SSH config parser
of `ListSshCommand::execute` yields exactly one entry whose fields equal
the original values, whenever each value is a single whitespace-free
token. -/
theorem render_parse_round_trip (host hostname user port identity_file : Str)
    (h1 : isToken host = true) (h2 : isToken hostname = true)
    (h3 : isToken user = true) (h4 : isToken port = true)
    (h5 : isToken identity_file = true) :
    parse_ssh_config (render_ssh_entry host hostname user port identity_file) =
      [⟨host, hostname, user, port, identity_file⟩] := by
  have hn1 := isToken_ne_nil h1
  have hw1 := isToken_no_ws h1
  have hn2 := isToken_ne_nil h2
  have hw2 := isToken_no_ws h2
  have hn3 := isToken_ne_nil h3
  have hw3 := isToken_no_ws h3
  have hn4 := isToken_ne_nil h4
  have hw4 := isToken_no_ws h4
  have hn5 := isToken_ne_nil h5
  have hw5 := isToken_no_ws h5
  have hsplit : splitOnChar '\n'
      ('\n' :: ((['H', 'o', 's', 't', ' '] ++ host) ++
       '\n' :: (([' ', ' ', ' ', ' ', 'H', 'o', 's', 't', 'N', 'a', 'm', 'e', ' '] ++ hostname) ++
       '\n' :: (([' ', ' ', ' ', ' ', 'U', 's', 'e', 'r', ' '] ++ user) ++
       '\n' :: (([' ', ' ', ' ', ' ', 'P', 'o', 'r', 't', ' '] ++ port) ++
       '\n' :: (([' ', ' ', ' ', ' ', 'I', 'd', 'e', 'n', 't', 'i', 't', 'y', 'F', 'i', 'l', 'e', ' ']
          ++ identity_file) ++ ['\n'])))))) =
      [[], ['H', 'o', 's', 't', ' '] ++ host,
       [' ', ' ', ' ', ' ', 'H', 'o', 's', 't', 'N', 'a', 'm', 'e', ' '] ++ hostname,
       [' ', ' ', ' ', ' ', 'U', 's', 'e', 'r', ' '] ++ user,
       [' ', ' ', ' ', ' ', 'P', 'o', 'r', 't', ' '] ++ port,
       [' ', ' ', ' ', ' ', 'I', 'd', 'e', 'n', 't', 'i', 't', 'y', 'F', 'i', 'l', 'e', ' ']
         ++ identity_file, []] := by
    rw [splitOnChar_cons_sep,
      splitOnChar_append '\n' _ _ (no_nl ['H', 'o', 's', 't', ' '] host (by decide) hw1),
      splitOnChar_append '\n' _ _
        (no_nl [' ', ' ', ' ', ' ', 'H', 'o', 's', 't', 'N', 'a', 'm', 'e', ' '] hostname
          (by decide) hw2),
      splitOnChar_append '\n' _ _
        (no_nl [' ', ' ', ' ', ' ', 'U', 's', 'e', 'r', ' '] user (by decide) hw3),
      splitOnChar_append '\n' _ _
        (no_nl [' ', ' ', ' ', ' ', 'P', 'o', 'r', 't', ' '] port (by decide) hw4),
      splitOnChar_append '\n' _ _
        (no_nl [' ', ' ', ' ', ' ', 'I', 'd', 'e', 'n', 't', 'i', 't', 'y', 'F', 'i', 'l', 'e', ' ']
          identity_file (by decide) hw5)]
    rfl
  have hmap := rustLines_of_split (render_ssh_entry host hostname user port identity_file)
    [[], ['H', 'o', 's', 't', ' '] ++ host,
     [' ', ' ', ' ', ' ', 'H', 'o', 's', 't', 'N', 'a', 'm', 'e', ' '] ++ hostname,
     [' ', ' ', ' ', ' ', 'U', 's', 'e', 'r', ' '] ++ user,
     [' ', ' ', ' ', ' ', 'P', 'o', 'r', 't', ' '] ++ port,
     [' ', ' ', ' ', ' ', 'I', 'd', 'e', 'n', 't', 'i', 't', 'y', 'F', 'i', 'l', 'e', ' ']
       ++ identity_file] (by simpa [render_ssh_entry] using hsplit)
  have hlines : rustLines (render_ssh_entry host hostname user port identity_file) =
      [[], ['H', 'o', 's', 't', ' '] ++ host,
       [' ', ' ', ' ', ' ', 'H', 'o', 's', 't', 'N', 'a', 'm', 'e', ' '] ++ hostname,
       [' ', ' ', ' ', ' ', 'U', 's', 'e', 'r', ' '] ++ user,
       [' ', ' ', ' ', ' ', 'P', 'o', 'r', 't', ' '] ++ port,
       [' ', ' ', ' ', ' ', 'I', 'd', 'e', 'n', 't', 'i', 't', 'y', 'F', 'i', 'l', 'e', ' ']
         ++ identity_file] := by
    rw [hmap]
    simp only [List.map_cons, List.map_nil]
    rw [stripCR_token ['H', 'o', 's', 't', ' '] host hn1 hw1,
      stripCR_token [' ', ' ', ' ', ' ', 'H', 'o', 's', 't', 'N', 'a', 'm', 'e', ' ']
        hostname hn2 hw2,
      stripCR_token [' ', ' ', ' ', ' ', 'U', 's', 'e', 'r', ' '] user hn3 hw3,
      stripCR_token [' ', ' ', ' ', ' ', 'P', 'o', 'r', 't', ' '] port hn4 hw4,
      stripCR_token [' ', ' ', ' ', ' ', 'I', 'd', 'e', 'n', 't', 'i', 't', 'y', 'F', 'i',
        'l', 'e', ' '] identity_file hn5 hw5]
    rfl
  show sshFinish (ssh_scan_lines
      (rustLines (render_ssh_entry host hostname user port identity_file)) [] none) =
    [⟨host, hostname, user, port, identity_file⟩]
  rw [hlines, scan_lines_nil_line, scan_lines_host _ _ host hn1 hw1,
    scan_lines_hostname _ _ _ hostname hn2 hw2,
    scan_lines_user _ _ _ user hn3 hw3,
    scan_lines_port _ _ _ port hn4 hw4,
    scan_lines_idfile _ _ _ identity_file hn5 hw5]
  rfl

/-- Witness for claim C8 at a concrete entry. -/
theorem render_parse_round_trip_witness :
    parse_ssh_config
      (render_ssh_entry "gh-a".toList "github.com".toList "git".toList "22".toList
        "~/.ssh/id_rsa".toList) =
      [⟨"gh-a".toList, "github.com".toList, "git".toList, "22".toList,
        "~/.ssh/id_rsa".toList⟩] :=
  render_parse_round_trip "gh-a".toList "github.com".toList "git".toList "22".toList
    "~/.ssh/id_rsa".toList (by decide) (by decide) (by decide) (by decide) (by decide)

end Guse
